import Mathlib

set_option maxRecDepth 8000

/-!
Shallow embedding of the Reconciliation & Provenance-Ordering core of the
PrimeProvenance-ArP repository (frontend `ArtworkDetailPage`):
`extractYear`, `formatDate`, the provenance sort comparator, the
field-merge `||` chains, and `getExternalLinks`.

Strings from the source are modelled as Lean `String`s; JavaScript
truthiness of an optional string (undefined or empty both falsy) is made
explicit.  JavaScript `number` values that the code treats as integers
(the explicit `order` field, extracted years) are modelled as `Int`.
-/

namespace ArP

/-- Character-code test for the regex class `\d` (ASCII digits 48--57). -/
def isDig (c : Char) : Bool := 48 ≤ c.toNat && c.toNat ≤ 57

/-- Character-code test for the regex class `\w` (ASCII letters, digits, underscore). -/
def isWordChar (c : Char) : Bool :=
  (48 ≤ c.toNat && c.toNat ≤ 57) || (65 ≤ c.toNat && c.toNat ≤ 90) ||
  (97 ≤ c.toNat && c.toNat ≤ 122) || c.toNat = 95

/-- Whitespace test modelling the regex class `\s` (space, tab, LF, VT, FF, CR, NBSP). -/
def isWs (c : Char) : Bool :=
  c.toNat = 32 || c.toNat = 9 || c.toNat = 10 || c.toNat = 11 ||
  c.toNat = 12 || c.toNat = 13 || c.toNat = 160

/-- Numeric value of an ASCII digit character, as in `parseInt`. -/
def digitVal (c : Char) : Int := (c.toNat : Int) - 48

/-- Value of a four-digit group captured by `(\d{4})`, as read by `parseInt(_, 10)`. -/
def fourDigitVal (a b c d : Char) : Int :=
  digitVal a * 1000 + digitVal b * 100 + digitVal c * 10 + digitVal d

/-- Match `\d{4}` at the head of the character list (further digits may follow,
as in the unanchored-end regex `^(\d{4})` of `extractYear`); returns the value
of the first four digits. -/
def four? : List Char → Option Int
  | a :: b :: c :: d :: _ =>
    if isDig a && isDig b && isDig c && isDig d then some (fourDigitVal a b c d)
    else none
  | _ => none

/-- Match the part `\.?\s*(\d{4})` that follows the letter `c` in the regex
`/c\.?\s*(\d{4})/i`: an optional dot, then greedy whitespace, then four digits. -/
def circaTail (rest : List Char) : Option Int :=
  let afterDot := match rest with
    | '.' :: t => t
    | t => t
  four? (afterDot.dropWhile isWs)

/-- Leftmost match of `/c\.?\s*(\d{4})/i` over the whole list: scan for a
`c`/`C` whose suffix matches `circaTail`. -/
def circaScan : List Char → Option Int
  | [] => none
  | c :: rest =>
    if c == 'c' || c == 'C' then
      match circaTail rest with
      | some v => some v
      | none => circaScan rest
    else circaScan rest

/-- Match `\d{4}\b` at the head of the list: four digits not followed by a
word character. -/
def fourBounded : List Char → Option Int
  | a :: b :: c :: d :: rest =>
    if isDig a && isDig b && isDig c && isDig d &&
        (match rest with | [] => true | e :: _ => !isWordChar e) then
      some (fourDigitVal a b c d)
    else none
  | _ => none

/-- Leftmost match of `/\b(\d{4})\b/`.  The boolean argument records whether a
word boundary holds before the current position (true at the start of the
string or after a non-word character). -/
def standaloneScan : Bool → List Char → Option Int
  | _, [] => none
  | bd, c :: rest =>
    match (if bd then fourBounded (c :: rest) else none) with
    | some v => some v
    | none => standaloneScan (!isWordChar c) rest

/-- List-level body of `extractYear`: try `^(\d{4})`, then `/c\.?\s*(\d{4})/i`,
then `/\b(\d{4})\b/`, first match wins; otherwise null. -/
def extractYearL (l : List Char) : Option Int :=
  match four? l with
  | some v => some v
  | none =>
    match circaScan l with
    | some v => some v
    | none => standaloneScan true l

/-- Embedding of the source helper `extractYear (dateStr: string): number | null`. -/
def extractYear (s : String) : Option Int := extractYearL s.data

/-- Does the character list contain four consecutive ASCII digits anywhere
(i.e. does some suffix start with `\d{4}`)? -/
def hasFourRun : List Char → Bool
  | [] => false
  | c :: rest => (four? (c :: rest)).isSome || hasFourRun rest

/-- Value of a two-digit group captured by `(\d{2})`. -/
def twoDigitVal (a b : Char) : Int := digitVal a * 10 + digitVal b

/-- Anchored match of `^(\d{4})-(\d{2})-(\d{2})$`, returning (year, month, day). -/
def ymd? : List Char → Option (Int × Int × Int)
  | [y1, y2, y3, y4, h1, m1, m2, h2, d1, d2] =>
    if isDig y1 && isDig y2 && isDig y3 && isDig y4 && h1 = '-' &&
        isDig m1 && isDig m2 && h2 = '-' && isDig d1 && isDig d2 then
      some (fourDigitVal y1 y2 y3 y4, twoDigitVal m1 m2, twoDigitVal d1 d2)
    else none
  | _ => none

/-- Anchored match of `^(\d{4})-(\d{2})$`, returning (year, month). -/
def ym? : List Char → Option (Int × Int)
  | [y1, y2, y3, y4, h1, m1, m2] =>
    if isDig y1 && isDig y2 && isDig y3 && isDig y4 && h1 = '-' && isDig m1 && isDig m2 then
      some (fourDigitVal y1 y2 y3 y4, twoDigitVal m1 m2)
    else none
  | _ => none

/-- Anchored match of `^\d{4}$`. -/
def yOnly : List Char → Bool
  | [a, b, c, d] => isDig a && isDig b && isDig c && isDig d
  | _ => false

/-- Serial day number of a proleptic Gregorian date (days since 1970-01-01),
for month in 1..12; the standard civil-calendar conversion used to model the
ECMAScript `Date` time value. -/
def daysFromCivil (y m d : Int) : Int :=
  let yy := if m ≤ 2 then y - 1 else y
  let era := yy.fdiv 400
  let yoe := yy - era * 400
  let mp := (m + 9).fmod 12
  let doy := (153 * mp + 2).fdiv 5 + d - 1
  let doe := yoe * 365 + yoe.fdiv 4 - yoe.fdiv 100 + doy
  era * 146097 + doe - 719468

/-- Inverse of `daysFromCivil`: proleptic Gregorian (year, month, day) of a
serial day number. -/
def civilFromDays (z0 : Int) : Int × Int × Int :=
  let z := z0 + 719468
  let era := z.fdiv 146097
  let doe := z - era * 146097
  let yoe := (doe - doe.fdiv 1460 + doe.fdiv 36524 - doe.fdiv 146096).fdiv 365
  let y := yoe + era * 400
  let doy := doe - (365 * yoe + yoe.fdiv 4 - yoe.fdiv 100)
  let mp := (5 * doy + 2).fdiv 153
  let d := doy - (153 * mp + 2).fdiv 5 + 1
  let m := mp + (if mp < 10 then 3 else -9)
  (if m ≤ 2 then y + 1 else y, m, d)

/-- The ECMAScript two-digit-year rule of the `Date(year, month, day)`
constructor: years 0..99 denote 1900..1999. -/
def jsYear (y : Int) : Int := if 0 ≤ y ∧ y ≤ 99 then y + 1900 else y

/-- Normalized (year, month 1..12, day) of `new Date(y, mIdx, d)`: month
indices outside 0..11 and days outside the month roll over arithmetically. -/
def jsDateNorm (y mIdx d : Int) : Int × Int × Int :=
  let yr := jsYear y
  let ym := yr * 12 + mIdx
  civilFromDays (daysFromCivil (ym.fdiv 12) (ym.fmod 12 + 1) 1 + (d - 1))

/-- Long en-US month name, as produced by `toLocaleDateString` with
`month: 'long'` (month numbered 1..12). -/
def monthLong (m : Int) : String :=
  if m = 1 then "January" else if m = 2 then "February" else if m = 3 then "March"
  else if m = 4 then "April" else if m = 5 then "May" else if m = 6 then "June"
  else if m = 7 then "July" else if m = 8 then "August" else if m = 9 then "September"
  else if m = 10 then "October" else if m = 11 then "November"
  else if m = 12 then "December" else ""

/-- Rendering of `toLocaleDateString('en-US', { year, month: 'long', day })`. -/
def renderYMD (t : Int × Int × Int) : String :=
  monthLong t.2.1 ++ " " ++ toString t.2.2 ++ ", " ++ toString t.1

/-- Rendering of `toLocaleDateString('en-US', { year, month: 'long' })`. -/
def renderYM (t : Int × Int × Int) : String :=
  monthLong t.2.1 ++ " " ++ toString t.1

/-- The `datePart` computation of `formatDate`: the part of the string before
the first `T` (the whole string when no `T` occurs), as produced by
`dateStr.split('T')[0]` under the `includes('T')` guard. -/
def stripTime (s : String) : String := ⟨s.data.takeWhile (fun c => c != 'T')⟩

/-- Embedding of the source helper `formatDate (dateStr: string): string`:
empty input short-circuits, `YYYY-MM-DD` and `YYYY-MM` are rendered through
the `Date` constructor, `YYYY` returns the stripped date part, and anything
else returns the original string unchanged. -/
def formatDate (s : String) : String :=
  if s = "" then ""
  else
    match ymd? (stripTime s).data with
    | some (y, m, d) => renderYMD (jsDateNorm y (m - 1) d)
    | none =>
      match ym? (stripTime s).data with
      | some (y, m) => renderYM (jsDateNorm y (m - 1) 1)
      | none => if yOnly (stripTime s).data then stripTime s else s

/-- Embedding of the `ProvenanceRecord` interface of `services/api.ts`;
optional fields become `Option`, the numeric `order` an `Option Int`. -/
structure ProvenanceRecord where
  id : String
  date : Option String
  event : String
  owner : Option String
  location : Option String
  description : Option String
  sourceUri : Option String
  order : Option Int
  deriving DecidableEq, Repr

/-- JavaScript truthiness of an optional string: `undefined` and the empty
string are falsy, every other string truthy. -/
def truthyStr : Option String → Bool
  | none => false
  | some s => s != ""

/-- The string behind an optional value (only consulted under a truthiness
guard, where it is the actual string). -/
def getStr : Option String → String
  | none => ""
  | some s => s

/-- Code points of a string, the base of the lexicographic collation model. -/
def strCodes (s : String) : List Nat := s.data.map Char.toNat

/-- Three-way comparison on `Nat`. -/
def natCmp (m n : Nat) : Ordering :=
  if m < n then .lt else if m = n then .eq else .gt

/-- Three-way comparison on `Int`. -/
def intCmp (x y : Int) : Ordering :=
  if x < y then .lt else if x = y then .eq else .gt

/-- Lexicographic three-way comparison on code-point lists. -/
def codesCmp : List Nat → List Nat → Ordering
  | [], [] => .eq
  | [], _ :: _ => .lt
  | _ :: _, [] => .gt
  | a :: as, b :: bs =>
    match natCmp a b with
    | .eq => codesCmp as bs
    | o => o

/-- Model of `String.prototype.localeCompare` as a sign value, with the
default collation modelled as code-point lexicographic order (the date
strings compared by the source are ASCII). -/
def localeCompare (a b : String) : Int :=
  match codesCmp (strCodes a) (strCodes b) with
  | .lt => -1
  | .eq => 0
  | .gt => 1

/-- Embedding of the pairwise sort comparator applied to provenance records
in `ArtworkDetailPage` (negative: `a` sorts before `b`): explicit `order`
first, then date-derived year, then `localeCompare` on the raw dates, then
presence of a (truthy) date. -/
def compareProvenance (a b : ProvenanceRecord) : Int :=
  match a.order, b.order with
  | some x, some y => x - y
  | some _, none => -1
  | none, some _ => 1
  | none, none =>
    if truthyStr a.date && truthyStr b.date then
      match extractYear (getStr a.date), extractYear (getStr b.date) with
      | some ya, some yb => ya - yb
      | some _, none => -1
      | none, some _ => 1
      | none, none => localeCompare (getStr a.date) (getStr b.date)
    else if truthyStr a.date then -1
    else if truthyStr b.date then 1
    else 0

/-- Sign of an integer comparator result, as the induced ordering. -/
def ordOfInt (i : Int) : Ordering :=
  if i < 0 then .lt else if i = 0 then .eq else .gt

/-- Ranking key of a provenance record: tier (0 explicit order, 1 parseable
date, 2 unparseable truthy date, 3 no usable date), numeric subkey, string
subkey.  The comparator's sign coincides with the lexicographic comparison
of these keys. -/
def rankKey (e : ProvenanceRecord) : Nat × Int × List Nat :=
  match e.order with
  | some x => (0, x, [])
  | none =>
    match e.date with
    | some d =>
      if d = "" then (3, 0, [])
      else
        match extractYear d with
        | some y => (1, y, [])
        | none => (2, 0, strCodes d)
    | none => (3, 0, [])

/-- Lexicographic comparison of ranking keys. -/
def keyCmp (k1 k2 : Nat × Int × List Nat) : Ordering :=
  (natCmp k1.1 k2.1).then ((intCmp k1.2.1 k2.2.1).then (codesCmp k1.2.2 k2.2.2))

/-- The strict relation induced by the comparator: `a` sorts strictly before `b`. -/
def sortsBefore (a b : ProvenanceRecord) : Prop := compareProvenance a b < 0

instance (a b : ProvenanceRecord) : Decidable (sortsBefore a b) :=
  inferInstanceAs (Decidable (compareProvenance a b < 0))

/-- Incomparability under the comparator: neither sorts strictly before the other. -/
def equivRank (a b : ProvenanceRecord) : Prop := ¬ sortsBefore a b ∧ ¬ sortsBefore b a

/-- Embedding of the optional `externalLinks` object of the `Artwork` interface. -/
structure ExternalLinksRec where
  dbpedia : Option String
  wikidata : Option String
  getty : Option String
  deriving DecidableEq, Repr

/-- Embedding of the `Artwork` interface of `services/api.ts` (the JSON-LD
passthrough fields and the embedded provenance list are irrelevant here). -/
structure Artwork where
  id : String
  title : String
  artist : Option String
  artistUri : Option String
  dateCreated : Option String
  medium : Option String
  dimensions : Option String
  description : Option String
  imageUrl : Option String
  currentLocation : Option String
  period : Option String
  style : Option String
  externalLinks : Option ExternalLinksRec
  deriving DecidableEq, Repr

/-- Embedding of the `DBpediaArtworkInfo` interface. -/
structure DBpediaArtworkInfo where
  uri : String
  label : Option String
  abstract : Option String
  thumbnail : Option String
  museum : Option String
  movement : Option String
  deriving DecidableEq, Repr

/-- Embedding of the `WikidataArtworkInfo` interface. -/
structure WikidataArtworkInfo where
  uri : String
  label : Option String
  description : Option String
  image : Option String
  inception : Option String
  genre : Option String
  deriving DecidableEq, Repr

/-- Embedding of the `GettyTerm` interface. -/
structure GettyTerm where
  uri : String
  prefLabel : Option String
  scopeNote : Option String
  broader : Option String
  deriving DecidableEq, Repr

/-- Embedding of the `DBpediaArtistInfo` interface. -/
structure DBpediaArtistInfo where
  uri : String
  name : Option String
  abstract : Option String
  birthDate : Option String
  deathDate : Option String
  birthPlace : Option String
  thumbnail : Option String
  deriving DecidableEq, Repr

/-- Embedding of the `WikidataArtistInfo` interface. -/
structure WikidataArtistInfo where
  uri : String
  name : Option String
  description : Option String
  birthDate : Option String
  deathDate : Option String
  nationality : Option String
  image : Option String
  deriving DecidableEq, Repr

/-- Embedding of the `LocalArtistInfo` interface. -/
structure LocalArtistInfo where
  source : String
  uri : Option String
  name : Option String
  birthDate : Option String
  deathDate : Option String
  nationality : Option String
  description : Option String
  deriving DecidableEq, Repr

/-- Embedding of the `ArtworkEnrichment` interface. -/
structure ArtworkEnrichment where
  artwork_id : String
  dbpedia : Option DBpediaArtworkInfo
  wikidata : Option WikidataArtworkInfo
  getty : Option (List GettyTerm)
  artist_dbpedia : Option DBpediaArtistInfo
  artist_wikidata : Option WikidataArtistInfo
  artist_local : Option LocalArtistInfo
  deriving DecidableEq, Repr

/-- An external identity link, `{name, url}`. -/
structure ExternalLink where
  name : String
  url : String
  deriving DecidableEq, Repr

/-- JavaScript truthiness coercion of an optional string to an optional
value: keeps the string only when truthy (non-absent and non-empty). -/
def jsGet (o : Option String) : Option String :=
  match o with
  | some s => if s = "" then none else some s
  | none => none

/-- The truthy value of `enrichment?.dbpedia?.uri`. -/
def enrDbp (e : Option ArtworkEnrichment) : Option String :=
  jsGet (e.bind fun x => x.dbpedia.map DBpediaArtworkInfo.uri)

/-- The truthy value of `enrichment?.wikidata?.uri`. -/
def enrWik (e : Option ArtworkEnrichment) : Option String :=
  jsGet (e.bind fun x => x.wikidata.map WikidataArtworkInfo.uri)

/-- The first Getty term when `enrichment?.getty` is a non-empty array
(the source condition `enrichment?.getty && enrichment.getty.length > 0`). -/
def gettyFirst (e : Option ArtworkEnrichment) : Option GettyTerm :=
  (e.bind ArtworkEnrichment.getty).bind List.head?

/-- The truthy value of `artwork?.externalLinks?.dbpedia`. -/
def artDbp (a : Option Artwork) : Option String :=
  jsGet (a.bind fun x => x.externalLinks.bind ExternalLinksRec.dbpedia)

/-- The truthy value of `artwork?.externalLinks?.wikidata`. -/
def artWik (a : Option Artwork) : Option String :=
  jsGet (a.bind fun x => x.externalLinks.bind ExternalLinksRec.wikidata)

/-- The truthy value of `artwork?.externalLinks?.getty`. -/
def artGetty (a : Option Artwork) : Option String :=
  jsGet (a.bind fun x => x.externalLinks.bind ExternalLinksRec.getty)

/-- Prefix test on character lists. -/
def isPrefixL : List Char → List Char → Bool
  | [], _ => true
  | _ :: _, [] => false
  | a :: as, b :: bs => a == b && isPrefixL as bs

/-- Model of `String.prototype.startsWith`: the first string starts with the
second. -/
def jsStartsWith (s p : String) : Bool := isPrefixL p.data s.data

/-- The trailing path segment of a URI: the characters after the last `/`
(the whole string when no `/` occurs), as computed by `uri.split('/').pop()`. -/
def lastSegment (s : String) : String :=
  ⟨(s.data.reverse.takeWhile (fun c => c != '/')).reverse⟩

/-- Full-string match of `/^Q\d+$/`: `Q` followed by one or more digits. -/
def qidTest (s : String) : Bool :=
  match s.data with
  | 'Q' :: rest => !rest.isEmpty && rest.all isDig
  | _ => false

/-- The Wikidata-link normalization applied to a truthy enrichment URI: a
valid `Q<digits>` trailing segment becomes a wiki-page URL, otherwise the
raw URI is kept only when it starts with `http`, otherwise no link. -/
def wikidataUriToLink (uri : String) : Option String :=
  let wikidataId := lastSegment uri
  if wikidataId != "" && qidTest wikidataId then
    some ("https://www.wikidata.org/wiki/" ++ wikidataId)
  else if jsStartsWith uri "http" then some uri
  else none

/-- The DBpedia block of `getExternalLinks`: enrichment URI when truthy,
else the artwork's recorded link when truthy, else nothing. -/
def dbpediaLink (e : Option ArtworkEnrichment) (a : Option Artwork) : Option ExternalLink :=
  match enrDbp e with
  | some uri => some ⟨"DBpedia", uri⟩
  | none =>
    match artDbp a with
    | some uri => some ⟨"DBpedia", uri⟩
    | none => none

/-- The Wikidata block of `getExternalLinks`: a truthy enrichment URI is
normalized (and on failure the artwork fallback is NOT consulted); only an
absent or falsy enrichment URI falls back to the artwork's recorded link. -/
def wikidataLink (e : Option ArtworkEnrichment) (a : Option Artwork) : Option ExternalLink :=
  match enrWik e with
  | some uri =>
    match wikidataUriToLink uri with
    | some url => some ⟨"Wikidata", url⟩
    | none => none
  | none =>
    match artWik a with
    | some uri => some ⟨"Wikidata", uri⟩
    | none => none

/-- The Getty block of `getExternalLinks`: first term of a non-empty
enrichment Getty array (its `uri` taken without a truthiness check), else
the artwork's recorded link when truthy, else nothing. -/
def gettyLink (e : Option ArtworkEnrichment) (a : Option Artwork) : Option ExternalLink :=
  match gettyFirst e with
  | some t => some ⟨"Getty AAT", t.uri⟩
  | none =>
    match artGetty a with
    | some uri => some ⟨"Getty AAT", uri⟩
    | none => none

/-- Embedding of `getExternalLinks`: the three provider blocks push at most
one link each, always in the order DBpedia, Wikidata, Getty AAT. -/
def getExternalLinks (e : Option ArtworkEnrichment) (a : Option Artwork) : List ExternalLink :=
  (dbpediaLink e a).toList ++ (wikidataLink e a).toList ++ (gettyLink e a).toList

/-- The url of the first link carrying the given provider name, if any. -/
def linkFor (n : String) (ls : List ExternalLink) : Option String :=
  (ls.find? fun l => l.name == n).map ExternalLink.url

/-- First-preference choice between two optional values. -/
def optOr (a b : Option String) : Option String :=
  match a with
  | some v => some v
  | none => b

/-- The JavaScript `||` operator on optional strings: the left operand when
truthy, otherwise the right operand. -/
def jsOr (a b : Option String) : Option String :=
  match a with
  | some s => if s = "" then b else some s
  | none => b

/-- Value of an `x₁ || x₂ || ... || xₙ` candidate chain (as in the artist
biography/birth/death precedence chains of `ArtworkDetailPage`), coerced to
absent when the whole chain is falsy. -/
def mergeField (cs : List (Option String)) : Option String :=
  cs.foldr jsOr none

/-- Modelled from the spec (§4.2 FieldMerger contract): `pick` returns the
first candidate that is present under the given presence test, absent if
none is. -/
def pickSpec (present : String → Bool) : List (Option String) → Option String
  | [] => none
  | none :: rest => pickSpec present rest
  | some s :: rest => if present s then some s else pickSpec present rest

/-- Presence of a string candidate as worded by the spec: non-empty and not
whitespace-only. -/
def presentSpec (s : String) : Bool :=
  s != "" && !s.data.all isWs

/-- The artist biography chain
`artist_dbpedia?.abstract || artist_wikidata?.description || artist_local?.description`. -/
def artistBiography (e : ArtworkEnrichment) : Option String :=
  mergeField [e.artist_dbpedia.bind DBpediaArtistInfo.abstract,
    e.artist_wikidata.bind WikidataArtistInfo.description,
    e.artist_local.bind LocalArtistInfo.description]

/-- The artist birth-date chain
`artist_dbpedia?.birthDate || artist_wikidata?.birthDate || artist_local?.birthDate`. -/
def artistBirthDate (e : ArtworkEnrichment) : Option String :=
  mergeField [e.artist_dbpedia.bind DBpediaArtistInfo.birthDate,
    e.artist_wikidata.bind WikidataArtistInfo.birthDate,
    e.artist_local.bind LocalArtistInfo.birthDate]

/-- The artist death-date chain
`artist_dbpedia?.deathDate || artist_wikidata?.deathDate || artist_local?.deathDate`. -/
def artistDeathDate (e : ArtworkEnrichment) : Option String :=
  mergeField [e.artist_dbpedia.bind DBpediaArtistInfo.deathDate,
    e.artist_wikidata.bind WikidataArtistInfo.deathDate,
    e.artist_local.bind LocalArtistInfo.deathDate]

/-- Comparison infrastructure: characterizations of the three-way comparisons. -/
theorem natCmp_eq_iff {m n : Nat} : natCmp m n = .eq ↔ m = n := by
  constructor
  · intro h
    unfold natCmp at h
    split_ifs at h with h1 h2
    exact h2
  · rintro rfl
    unfold natCmp
    split_ifs with h1 h2 <;> first | rfl | omega

theorem natCmp_lt_iff {m n : Nat} : natCmp m n = .lt ↔ m < n := by
  constructor
  · intro h
    unfold natCmp at h
    split_ifs at h with h1 h2
    exact h1
  · intro h
    unfold natCmp
    rw [if_pos h]

theorem natCmp_swap (m n : Nat) : natCmp n m = (natCmp m n).swap := by
  unfold natCmp
  split_ifs <;> first | rfl | omega

theorem intCmp_eq_iff {x y : Int} : intCmp x y = .eq ↔ x = y := by
  constructor
  · intro h
    unfold intCmp at h
    split_ifs at h with h1 h2
    exact h2
  · rintro rfl
    unfold intCmp
    split_ifs with h1 h2 <;> first | rfl | omega

theorem intCmp_lt_iff {x y : Int} : intCmp x y = .lt ↔ x < y := by
  constructor
  · intro h
    unfold intCmp at h
    split_ifs at h with h1 h2
    exact h1
  · intro h
    unfold intCmp
    rw [if_pos h]

theorem intCmp_swap (x y : Int) : intCmp y x = (intCmp x y).swap := by
  unfold intCmp
  split_ifs <;> first | rfl | omega

theorem natCmp_refl (m : Nat) : natCmp m m = .eq := natCmp_eq_iff.mpr rfl

theorem intCmp_refl (x : Int) : intCmp x x = .eq := intCmp_eq_iff.mpr rfl

theorem codesCmp_eq_iff : ∀ xs ys : List Nat, codesCmp xs ys = .eq ↔ xs = ys
  | [], [] => by simp [codesCmp]
  | [], _ :: _ => by simp [codesCmp]
  | _ :: _, [] => by simp [codesCmp]
  | a :: as, b :: bs => by
    simp only [codesCmp]
    cases h : natCmp a b with
    | lt =>
      simp only [List.cons.injEq]
      constructor
      · intro hc; cases hc
      · rintro ⟨rfl, rfl⟩; rw [natCmp_refl] at h; cases h
    | eq =>
      have hab : a = b := natCmp_eq_iff.mp h
      simp [hab, codesCmp_eq_iff as bs]
    | gt =>
      simp only [List.cons.injEq]
      constructor
      · intro hc; cases hc
      · rintro ⟨rfl, rfl⟩; rw [natCmp_refl] at h; cases h

theorem codesCmp_swap : ∀ xs ys : List Nat, codesCmp ys xs = (codesCmp xs ys).swap
  | [], [] => rfl
  | [], _ :: _ => rfl
  | _ :: _, [] => rfl
  | a :: as, b :: bs => by
    simp only [codesCmp]
    cases h : natCmp a b with
    | lt => rw [natCmp_swap a b, h]; rfl
    | eq => rw [natCmp_swap a b, h]; exact codesCmp_swap as bs
    | gt => rw [natCmp_swap a b, h]; rfl

theorem codesCmp_lt_trans :
    ∀ xs ys zs : List Nat, codesCmp xs ys = .lt → codesCmp ys zs = .lt → codesCmp xs zs = .lt
  | [], [], _ => by simp [codesCmp]
  | [], _ :: _, [] => by simp [codesCmp]
  | [], _ :: _, _ :: _ => by simp [codesCmp]
  | _ :: _, [], _ => by simp [codesCmp]
  | _ :: _, _ :: _, [] => by simp [codesCmp]
  | a :: as, b :: bs, c :: cs => by
    intro hx hy
    simp only [codesCmp] at hx hy ⊢
    cases h1 : natCmp a b with
    | lt =>
      rw [h1] at hx
      cases h2 : natCmp b c with
      | lt =>
        rw [natCmp_lt_iff.mpr (lt_trans (natCmp_lt_iff.mp h1) (natCmp_lt_iff.mp h2))]
      | eq =>
        have hb : b = c := natCmp_eq_iff.mp h2
        rw [natCmp_lt_iff.mpr (hb ▸ natCmp_lt_iff.mp h1)]
      | gt =>
        rw [h2] at hy
        simp at hy
    | eq =>
      rw [h1] at hx
      have hab : a = b := natCmp_eq_iff.mp h1
      cases h2 : natCmp b c with
      | lt =>
        rw [natCmp_lt_iff.mpr (hab ▸ natCmp_lt_iff.mp h2)]
      | eq =>
        have hbc : b = c := natCmp_eq_iff.mp h2
        rw [h2] at hy
        rw [natCmp_eq_iff.mpr (hab.trans hbc)]
        exact codesCmp_lt_trans as bs cs hx hy
      | gt =>
        rw [h2] at hy
        simp at hy
    | gt =>
      rw [h1] at hx
      simp at hx

theorem keyCmp_eq_iff (k1 k2 : Nat × Int × List Nat) : keyCmp k1 k2 = .eq ↔ k1 = k2 := by
  obtain ⟨t1, i1, s1⟩ := k1
  obtain ⟨t2, i2, s2⟩ := k2
  simp only [keyCmp, Ordering.then_eq_eq, natCmp_eq_iff, intCmp_eq_iff, codesCmp_eq_iff,
    Prod.mk.injEq]

theorem keyCmp_swap (k1 k2 : Nat × Int × List Nat) : keyCmp k2 k1 = (keyCmp k1 k2).swap := by
  obtain ⟨t1, i1, s1⟩ := k1
  obtain ⟨t2, i2, s2⟩ := k2
  show (natCmp t2 t1).then ((intCmp i2 i1).then (codesCmp s2 s1)) =
    ((natCmp t1 t2).then ((intCmp i1 i2).then (codesCmp s1 s2))).swap
  rw [Ordering.swap_then, Ordering.swap_then, natCmp_swap t1 t2, intCmp_swap i1 i2,
    codesCmp_swap s1 s2]

theorem keyCmp_lt_iff (k1 k2 : Nat × Int × List Nat) :
    keyCmp k1 k2 = .lt ↔
      k1.1 < k2.1 ∨ (k1.1 = k2.1 ∧ (k1.2.1 < k2.2.1 ∨
        (k1.2.1 = k2.2.1 ∧ codesCmp k1.2.2 k2.2.2 = .lt))) := by
  simp only [keyCmp, Ordering.then_eq_lt, natCmp_lt_iff, natCmp_eq_iff, intCmp_lt_iff,
    intCmp_eq_iff]

theorem keyCmp_lt_trans {k1 k2 k3 : Nat × Int × List Nat}
    (h1 : keyCmp k1 k2 = .lt) (h2 : keyCmp k2 k3 = .lt) : keyCmp k1 k3 = .lt := by
  rw [keyCmp_lt_iff] at h1 h2 ⊢
  rcases h1 with h1 | ⟨e1, h1⟩ <;> rcases h2 with h2 | ⟨e2, h2⟩
  · exact Or.inl (lt_trans h1 h2)
  · exact Or.inl (e2 ▸ h1)
  · exact Or.inl (e1 ▸ h2)
  · refine Or.inr ⟨e1.trans e2, ?_⟩
    rcases h1 with h1 | ⟨f1, h1⟩ <;> rcases h2 with h2 | ⟨f2, h2⟩
    · exact Or.inl (lt_trans h1 h2)
    · exact Or.inl (f2 ▸ h1)
    · exact Or.inl (f1 ▸ h2)
    · exact Or.inr ⟨f1.trans f2, codesCmp_lt_trans _ _ _ h1 h2⟩

theorem ordOfInt_sub (x y : Int) : ordOfInt (x - y) = intCmp x y := by
  unfold ordOfInt intCmp
  split_ifs <;> first | rfl | omega

theorem ordOfInt_eq_lt {i : Int} : ordOfInt i = .lt ↔ i < 0 := by
  unfold ordOfInt
  split_ifs with h1 h2 <;> simp_all <;> omega

theorem ordOfInt_eq_eq {i : Int} : ordOfInt i = .eq ↔ i = 0 := by
  unfold ordOfInt
  split_ifs with h1 h2 <;> simp_all <;> omega

theorem ordOfInt_eq_gt {i : Int} : ordOfInt i = .gt ↔ 0 < i := by
  unfold ordOfInt
  split_ifs with h1 h2 <;> simp_all <;> omega

theorem ordOfInt_localeCompare (x y : String) :
    ordOfInt (localeCompare x y) = codesCmp (strCodes x) (strCodes y) := by
  unfold localeCompare
  cases h : codesCmp (strCodes x) (strCodes y) <;> simp [ordOfInt]

/-- Ranking-key computations under each comparator branch. -/
theorem rankKey_order {e : ProvenanceRecord} {x : Int} (h : e.order = some x) :
    rankKey e = (0, x, []) := by
  simp only [rankKey, h]

theorem rankKey_year {e : ProvenanceRecord} {d : String} {y : Int} (h : e.order = none)
    (hd : e.date = some d) (hne : d ≠ "") (hy : extractYear d = some y) :
    rankKey e = (1, y, []) := by
  simp only [rankKey, h, hd, if_neg hne, hy]

theorem rankKey_lex {e : ProvenanceRecord} {d : String} (h : e.order = none)
    (hd : e.date = some d) (hne : d ≠ "") (hy : extractYear d = none) :
    rankKey e = (2, 0, strCodes d) := by
  simp only [rankKey, h, hd, if_neg hne, hy]

theorem rankKey_rest {e : ProvenanceRecord} (h : e.order = none)
    (hf : truthyStr e.date = false) : rankKey e = (3, 0, []) := by
  cases hd : e.date with
  | none => simp only [rankKey, h, hd]
  | some d =>
    rw [hd] at hf
    simp only [truthyStr, bne_eq_false_iff_eq] at hf
    simp only [rankKey, h, hd, if_pos hf]

theorem rankKey_fst_pos {e : ProvenanceRecord} (h : e.order = none) : 1 ≤ (rankKey e).1 := by
  cases hd : e.date with
  | none =>
    rw [rankKey_rest h (by rw [hd]; rfl)]
    decide
  | some d =>
    by_cases hne : d = ""
    · rw [rankKey_rest h (by rw [hd, hne]; decide)]
      decide
    · cases hy : extractYear d with
      | some y =>
        rw [rankKey_year h hd hne hy]
      | none =>
        rw [rankKey_lex h hd hne hy]
        show (1 : Nat) ≤ 2
        decide

theorem keyCmp_lt_of_fst (k1 k2 : Nat × Int × List Nat) (h : k1.1 < k2.1) :
    keyCmp k1 k2 = .lt :=
  (keyCmp_lt_iff k1 k2).mpr (Or.inl h)

/-- The bridge: the sign of the source comparator is the lexicographic
comparison of ranking keys. -/
theorem cmp_eq_keyCmp (a b : ProvenanceRecord) :
    ordOfInt (compareProvenance a b) = keyCmp (rankKey a) (rankKey b) := by
  cases ha : a.order with
  | some x =>
    cases hb : b.order with
    | some y =>
      simp only [compareProvenance, ha, hb]
      rw [rankKey_order ha, rankKey_order hb, ordOfInt_sub]
      show intCmp x y = (natCmp 0 0).then ((intCmp x y).then (codesCmp [] []))
      rw [natCmp_refl]
      cases intCmp x y <;> rfl
    | none =>
      simp only [compareProvenance, ha, hb]
      rw [rankKey_order ha,
        keyCmp_lt_of_fst (0, x, []) (rankKey b) (rankKey_fst_pos hb)]
      decide
  | none =>
    cases hb : b.order with
    | some y =>
      simp only [compareProvenance, ha, hb]
      rw [rankKey_order hb, keyCmp_swap,
        keyCmp_lt_of_fst (0, y, []) (rankKey a) (rankKey_fst_pos ha)]
      decide
    | none =>
      simp only [compareProvenance, ha, hb]
      by_cases hta : truthyStr a.date = true
      · obtain ⟨da, hda⟩ : ∃ d, a.date = some d := by
          cases hd : a.date with
          | none => rw [hd] at hta; cases hta
          | some d => exact ⟨d, rfl⟩
        have hnea : da ≠ "" := by
          rw [hda] at hta
          simpa [truthyStr] using hta
        by_cases htb : truthyStr b.date = true
        · obtain ⟨db, hdb⟩ : ∃ d, b.date = some d := by
            cases hd : b.date with
            | none => rw [hd] at htb; cases htb
            | some d => exact ⟨d, rfl⟩
          have hneb : db ≠ "" := by
            rw [hdb] at htb
            simpa [truthyStr] using htb
          rw [if_pos (show (truthyStr a.date && truthyStr b.date) = true from by
            rw [hta, htb]; rfl)]
          rw [hda, hdb]
          cases hya : extractYear da with
          | some ya =>
            cases hyb : extractYear db with
            | some yb =>
              simp only [getStr, hya, hyb]
              rw [rankKey_year ha hda hnea hya, rankKey_year hb hdb hneb hyb, ordOfInt_sub]
              show intCmp ya yb = (natCmp 1 1).then ((intCmp ya yb).then (codesCmp [] []))
              rw [natCmp_refl]
              cases intCmp ya yb <;> rfl
            | none =>
              simp only [getStr, hya, hyb]
              rw [rankKey_year ha hda hnea hya, rankKey_lex hb hdb hneb hyb,
                keyCmp_lt_of_fst (1, ya, []) (2, 0, strCodes db)
                  (show (1 : Nat) < 2 from by decide)]
              decide
          | none =>
            cases hyb : extractYear db with
            | some yb =>
              simp only [getStr, hya, hyb]
              rw [rankKey_lex ha hda hnea hya, rankKey_year hb hdb hneb hyb, keyCmp_swap,
                keyCmp_lt_of_fst (1, yb, []) (2, 0, strCodes da)
                  (show (1 : Nat) < 2 from by decide)]
              decide
            | none =>
              simp only [getStr, hya, hyb]
              rw [rankKey_lex ha hda hnea hya, rankKey_lex hb hdb hneb hyb,
                ordOfInt_localeCompare]
              show codesCmp (strCodes da) (strCodes db) =
                (natCmp 2 2).then ((intCmp 0 0).then (codesCmp (strCodes da) (strCodes db)))
              rw [natCmp_refl, intCmp_refl]
              cases codesCmp (strCodes da) (strCodes db) <;> rfl
        · have htbf : truthyStr b.date = false := by
            cases hv : truthyStr b.date
            · rfl
            · exact absurd hv htb
          rw [if_neg (show ¬(truthyStr a.date && truthyStr b.date) = true from by
            rw [hta, htbf]; decide)]
          rw [if_pos hta, rankKey_rest hb htbf]
          cases hya : extractYear da with
          | some ya =>
            rw [rankKey_year ha hda hnea hya,
              keyCmp_lt_of_fst (1, ya, []) (3, 0, [])
                (show (1 : Nat) < 3 from by decide)]
            decide
          | none =>
            rw [rankKey_lex ha hda hnea hya,
              keyCmp_lt_of_fst (2, 0, strCodes da) (3, 0, [])
                (show (2 : Nat) < 3 from by decide)]
            decide
      · have htaf : truthyStr a.date = false := by
          cases hv : truthyStr a.date
          · rfl
          · exact absurd hv hta
        rw [if_neg (show ¬(truthyStr a.date && truthyStr b.date) = true from by
          rw [htaf]; simp)]
        rw [if_neg (show ¬truthyStr a.date = true from by rw [htaf]; decide)]
        rw [rankKey_rest ha htaf]
        by_cases htb : truthyStr b.date = true
        · obtain ⟨db, hdb⟩ : ∃ d, b.date = some d := by
            cases hd : b.date with
            | none => rw [hd] at htb; cases htb
            | some d => exact ⟨d, rfl⟩
          have hneb : db ≠ "" := by
            rw [hdb] at htb
            simpa [truthyStr] using htb
          rw [if_pos htb, keyCmp_swap]
          cases hyb : extractYear db with
          | some yb =>
            rw [rankKey_year hb hdb hneb hyb,
              keyCmp_lt_of_fst (1, yb, []) (3, 0, [])
                (show (1 : Nat) < 3 from by decide)]
            decide
          | none =>
            rw [rankKey_lex hb hdb hneb hyb,
              keyCmp_lt_of_fst (2, 0, strCodes db) (3, 0, [])
                (show (2 : Nat) < 3 from by decide)]
            decide
        · have htbf : truthyStr b.date = false := by
            cases hv : truthyStr b.date
            · rfl
            · exact absurd hv htb
          rw [if_neg (show ¬truthyStr b.date = true from by rw [htbf]; decide)]
          rw [rankKey_rest hb htbf]
          decide

theorem keyCmp_refl (k : Nat × Int × List Nat) : keyCmp k k = .eq :=
  (keyCmp_eq_iff k k).mpr rfl

theorem sortsBefore_iff (a b : ProvenanceRecord) :
    sortsBefore a b ↔ keyCmp (rankKey a) (rankKey b) = .lt := by
  unfold sortsBefore
  rw [← cmp_eq_keyCmp]
  exact ordOfInt_eq_lt.symm

theorem equivRank_iff (a b : ProvenanceRecord) : equivRank a b ↔ rankKey a = rankKey b := by
  unfold equivRank
  rw [sortsBefore_iff, sortsBefore_iff, keyCmp_swap (rankKey a) (rankKey b)]
  constructor
  · rintro ⟨h1, h2⟩
    refine (keyCmp_eq_iff _ _).mp ?_
    cases hc : keyCmp (rankKey a) (rankKey b) with
    | lt => exact absurd hc h1
    | eq => rfl
    | gt => rw [hc] at h2; exact absurd rfl h2
  · intro h
    rw [h, keyCmp_refl]
    exact ⟨by decide, by decide⟩

/-- C1: when both provenance events carry an explicit `order`, the comparator
compares them by that value ascending (`a.order - b.order`); when exactly one
carries an `order`, that event sorts strictly first (result -1 or 1),
whatever date either event carries. -/
theorem claim_c1 (a b : ProvenanceRecord) :
    (∀ x y : Int, a.order = some x → b.order = some y →
      compareProvenance a b = x - y ∧ (compareProvenance a b < 0 ↔ x < y) ∧
      (compareProvenance a b = 0 ↔ x = y)) ∧
    (∀ x : Int, a.order = some x → b.order = none → compareProvenance a b = -1) ∧
    (∀ y : Int, a.order = none → b.order = some y → compareProvenance a b = 1) := by
  refine ⟨?_, ?_, ?_⟩
  · intro x y hx hy
    simp only [compareProvenance, hx, hy]
    exact ⟨trivial, by omega, by omega⟩
  · intro x hx hy
    simp only [compareProvenance, hx, hy]
  · intro y hx hy
    simp only [compareProvenance, hx, hy]

theorem claim_c1_witness :
    compareProvenance ⟨"", some "1891", "", none, none, none, none, some 2⟩
      ⟨"", some "1889", "", none, none, none, none, some 1⟩ = 2 - 1 :=
  ((claim_c1 ⟨"", some "1891", "", none, none, none, none, some 2⟩
      ⟨"", some "1889", "", none, none, none, none, some 1⟩).1 2 1 rfl rfl).1

/-- C2 (counterexample to the claim as stated): an event whose `date` field is
present but the empty string against an event with no `date` at all — exactly
one of the two has a `date`, yet the comparator returns 0 (equal) instead of
sorting the dated event first. -/
theorem claim_c2_counterexample :
    (⟨"", some "", "", none, none, none, none, none⟩ : ProvenanceRecord).date.isSome = true ∧
    (⟨"", none, "", none, none, none, none, none⟩ : ProvenanceRecord).date = none ∧
    compareProvenance ⟨"", some "", "", none, none, none, none, none⟩
      ⟨"", none, "", none, none, none, none, none⟩ = 0 := by
  exact ⟨rfl, rfl, rfl⟩

/-- C2 (amended): for events without `order`, with presence of a date taken as
the code's truthiness (present and non-empty): both dated → by extracted year
when both resolve, the resolved one first when only one resolves, and
`localeCompare` on the raw strings when neither does; exactly one (truthily)
dated → the dated one first; neither → equal. -/
theorem claim_c2_amended (a b : ProvenanceRecord) (ha : a.order = none)
    (hb : b.order = none) :
    (∀ da db : String, a.date = some da → b.date = some db → da ≠ "" → db ≠ "" →
      (∀ ya yb : Int, extractYear da = some ya → extractYear db = some yb →
        compareProvenance a b = ya - yb ∧ (compareProvenance a b < 0 ↔ ya < yb)) ∧
      (∀ ya : Int, extractYear da = some ya → extractYear db = none →
        compareProvenance a b = -1) ∧
      (∀ yb : Int, extractYear da = none → extractYear db = some yb →
        compareProvenance a b = 1) ∧
      (extractYear da = none → extractYear db = none →
        compareProvenance a b = localeCompare da db)) ∧
    (truthyStr a.date = true → truthyStr b.date = false → compareProvenance a b = -1) ∧
    (truthyStr a.date = false → truthyStr b.date = true → compareProvenance a b = 1) ∧
    (truthyStr a.date = false → truthyStr b.date = false → compareProvenance a b = 0) := by
  simp only [compareProvenance, ha, hb]
  refine ⟨?_, ?_, ?_, ?_⟩
  · intro da db hda hdb hnea hneb
    have hcond : (truthyStr a.date && truthyStr b.date) = true := by
      rw [hda, hdb]
      simp [truthyStr, hnea, hneb]
    rw [if_pos hcond, hda, hdb]
    simp only [getStr]
    refine ⟨?_, ?_, ?_, ?_⟩
    · intro ya yb hya hyb
      simp only [hya, hyb]
      exact ⟨trivial, by omega⟩
    · intro ya hya hyb
      simp only [hya, hyb]
    · intro yb hya hyb
      simp only [hya, hyb]
    · intro hya hyb
      simp only [hya, hyb]
  · intro hta htbf
    rw [if_neg (by rw [hta, htbf]; simp), if_pos hta]
  · intro htaf htb
    rw [if_neg (by rw [htaf]; simp), if_neg (by rw [htaf]; simp), if_pos htb]
  · intro htaf htbf
    rw [if_neg (by rw [htaf]; simp), if_neg (by rw [htaf]; simp),
      if_neg (by rw [htbf]; simp)]

theorem claim_c2_witness :
    compareProvenance ⟨"", some "1900", "", none, none, none, none, none⟩
      ⟨"", some "1891", "", none, none, none, none, none⟩ = 1900 - 1891 :=
  (((claim_c2_amended ⟨"", some "1900", "", none, none, none, none, none⟩
      ⟨"", some "1891", "", none, none, none, none, none⟩ rfl rfl).1
    "1900" "1891" rfl rfl (by decide) (by decide)).1 1900 1891 (by decide) (by decide)).1

/-- C3: the pairwise comparator is a strict weak ordering on arbitrary
provenance records: the induced strictly-sorts-before relation is
irreflexive and transitive, and incomparability is transitive. -/
theorem claim_c3 :
    (∀ a : ProvenanceRecord, ¬ sortsBefore a a) ∧
    (∀ a b c : ProvenanceRecord, sortsBefore a b → sortsBefore b c → sortsBefore a c) ∧
    (∀ a b c : ProvenanceRecord, equivRank a b → equivRank b c → equivRank a c) := by
  refine ⟨?_, ?_, ?_⟩
  · intro a h
    rw [sortsBefore_iff, keyCmp_refl] at h
    cases h
  · intro a b c h1 h2
    rw [sortsBefore_iff] at h1 h2 ⊢
    exact keyCmp_lt_trans h1 h2
  · intro a b c h1 h2
    rw [equivRank_iff] at h1 h2 ⊢
    exact h1.trans h2

theorem claim_c3_witness :
    sortsBefore (⟨"", none, "", none, none, none, none, some 1⟩ : ProvenanceRecord)
      ⟨"", some "1900", "", none, none, none, none, none⟩ :=
  claim_c3.2.1 ⟨"", none, "", none, none, none, none, some 1⟩
    ⟨"", some "1891", "", none, none, none, none, none⟩
    ⟨"", some "1900", "", none, none, none, none, none⟩ (by decide) (by decide)

theorem hasFourRun_tail {c : Char} {l : List Char} (h : hasFourRun (c :: l) = false) :
    hasFourRun l = false := by
  unfold hasFourRun at h
  rcases Bool.or_eq_false_iff.mp h with ⟨_, h2⟩
  exact h2

theorem hasFourRun_append : ∀ (p t : List Char), hasFourRun (p ++ t) = false →
    hasFourRun t = false
  | [], _, h => h
  | c :: p, t, h => hasFourRun_append p t (hasFourRun_tail h)

theorem dropWhile_suffix (p : Char → Bool) : ∀ l : List Char, ∃ q, q ++ l.dropWhile p = l
  | [] => ⟨[], rfl⟩
  | c :: t => by
    by_cases h : p c = true
    · obtain ⟨q, hq⟩ := dropWhile_suffix p t
      exact ⟨c :: q, by simp [List.dropWhile_cons, h, hq]⟩
    · exact ⟨[], by simp [List.dropWhile_cons, h]⟩

theorem four?_eq_none {l : List Char} (h : hasFourRun l = false) : four? l = none := by
  cases l with
  | nil => rfl
  | cons c rest =>
    unfold hasFourRun at h
    rcases Bool.or_eq_false_iff.mp h with ⟨h1, _⟩
    cases hf : four? (c :: rest) with
    | none => rfl
    | some v => rw [hf] at h1; cases h1

theorem circaTail_none {rest : List Char} (h : hasFourRun rest = false) :
    circaTail rest = none := by
  have key : ∀ x : List Char, (∃ q, q ++ x = rest) → four? (x.dropWhile isWs) = none := by
    rintro x ⟨q, hq⟩
    apply four?_eq_none
    obtain ⟨q2, hq2⟩ := dropWhile_suffix isWs x
    have : hasFourRun x = false := hasFourRun_append q x (by rw [hq]; exact h)
    exact hasFourRun_append q2 (x.dropWhile isWs) (by rw [hq2]; exact this)
  unfold circaTail
  split
  · next t => exact key t ⟨['.'], rfl⟩
  · next t heq => exact key rest ⟨[], rfl⟩

theorem circaScan_none : ∀ l : List Char, hasFourRun l = false → circaScan l = none
  | [], _ => rfl
  | c :: rest, h => by
    have ht : hasFourRun rest = false := hasFourRun_tail h
    unfold circaScan
    split_ifs with hc
    · rw [circaTail_none ht]
      exact circaScan_none rest ht
    · exact circaScan_none rest ht

theorem fourBounded_none : ∀ l : List Char, four? l = none → fourBounded l = none
  | [], _ => rfl
  | [_], _ => rfl
  | [_, _], _ => rfl
  | [_, _, _], _ => rfl
  | a :: b :: c :: d :: rest, h => by
    simp only [four?] at h
    by_cases hd : (isDig a && isDig b && isDig c && isDig d) = true
    · rw [if_pos hd] at h
      cases h
    · have hdf : (isDig a && isDig b && isDig c && isDig d) = false := by
        cases hx : (isDig a && isDig b && isDig c && isDig d)
        · rfl
        · exact absurd hx hd
      simp only [fourBounded]
      rw [if_neg ?_]
      intro hcond
      rw [Bool.and_assoc, Bool.and_assoc, Bool.and_assoc] at hcond
      rw [Bool.and_assoc, Bool.and_assoc] at hdf
      rcases Bool.and_eq_true_iff.mp hcond with ⟨ha2, hrest⟩
      rcases Bool.and_eq_true_iff.mp hrest with ⟨hb2, hrest2⟩
      rcases Bool.and_eq_true_iff.mp hrest2 with ⟨hc2, hrest3⟩
      rcases Bool.and_eq_true_iff.mp hrest3 with ⟨hd2, _⟩
      rw [ha2, hb2, hc2, hd2] at hdf
      cases hdf

theorem standaloneScan_none : ∀ (bd : Bool) (l : List Char), hasFourRun l = false →
    standaloneScan bd l = none
  | _, [], _ => rfl
  | bd, c :: rest, h => by
    have hfb : fourBounded (c :: rest) = none :=
      fourBounded_none (c :: rest) (four?_eq_none h)
    have ht : hasFourRun rest = false := hasFourRun_tail h
    unfold standaloneScan
    cases bd
    · exact standaloneScan_none (!isWordChar c) rest ht
    · rw [if_pos rfl, hfb]
      exact standaloneScan_none (!isWordChar c) rest ht

theorem four?_digits {a b c d : Char} (rest : List Char) (ha : isDig a = true)
    (hb : isDig b = true) (hc : isDig c = true) (hd : isDig d = true) :
    four? (a :: b :: c :: d :: rest) = some (fourDigitVal a b c d) := by
  simp only [four?]
  rw [ha, hb, hc, hd]
  rfl

/-- C4: a date string that begins with four ASCII digits extracts to the
integer value of those first four digits, and a string with no four-digit
run anywhere (hence none at the start, after a `c.`/`circa` marker, or
standalone) extracts to null. -/
theorem claim_c4 (s : String) :
    (∀ (a b c d : Char) (rest : List Char), s.data = a :: b :: c :: d :: rest →
      isDig a = true → isDig b = true → isDig c = true → isDig d = true →
      extractYear s = some (fourDigitVal a b c d)) ∧
    (hasFourRun s.data = false → extractYear s = none) := by
  constructor
  · intro a b c d rest hs ha hb hc hd
    unfold extractYear extractYearL
    rw [hs, four?_digits rest ha hb hc hd]
  · intro h
    unfold extractYear extractYearL
    rw [four?_eq_none h, circaScan_none s.data h, standaloneScan_none true s.data h]

theorem claim_c4_witness :
    extractYear "1838-05" = some 1838 ∧ extractYear "unknown" = none :=
  ⟨by
    have := (claim_c4 "1838-05").1 '1' '8' '3' '8' ['-', '0', '5'] rfl rfl rfl rfl rfl
    rw [this]
    decide,
  (claim_c4 "unknown").2 (by decide)⟩

theorem yOnly_shape : ∀ l : List Char, yOnly l = true → ymd? l = none ∧ ym? l = none
  | [_, _, _, _], _ => ⟨rfl, rfl⟩
  | [], h => Bool.noConfusion h
  | [_], h => Bool.noConfusion h
  | [_, _], h => Bool.noConfusion h
  | [_, _, _], h => Bool.noConfusion h
  | _ :: _ :: _ :: _ :: _ :: _, h => Bool.noConfusion h

theorem formatDate_passthrough {s : String} (h1 : ymd? (stripTime s).data = none)
    (h2 : ym? (stripTime s).data = none) (h3 : yOnly (stripTime s).data = false) :
    formatDate s = s := by
  unfold formatDate
  by_cases he : s = ""
  · rw [if_pos he, he]
  · rw [if_neg he, h1, h2, h3]
    rfl

/-- C5: `formatDate` renders `YYYY-MM-DD` (after stripping a `T` time part)
as the long en-US month/day/year form, `YYYY-MM` as long month/year, returns
a bare `YYYY` date part unchanged, and passes every other input through
unchanged; in particular on the four spec examples. -/
theorem claim_c5 :
    formatDate "1838-05-15" = "May 15, 1838" ∧
    formatDate "1838-05" = "May 1838" ∧
    formatDate "1838" = "1838" ∧
    formatDate "garbage" = "garbage" ∧
    (∀ s : String, ymd? (stripTime s).data = none → ym? (stripTime s).data = none →
      yOnly (stripTime s).data = false → formatDate s = s) ∧
    (∀ s : String, s ≠ "" → yOnly (stripTime s).data = true →
      formatDate s = stripTime s) := by
  refine ⟨by decide, by decide, by decide, by decide, ?_, ?_⟩
  · intro s h1 h2 h3
    exact formatDate_passthrough h1 h2 h3
  · intro s hne h
    obtain ⟨hy1, hy2⟩ := yOnly_shape (stripTime s).data h
    unfold formatDate
    rw [if_neg hne, hy1, hy2, h]
    rfl

theorem claim_c5_witness : formatDate "circa 1503/1519" = "circa 1503/1519" :=
  claim_c5.2.2.2.2.1 "circa 1503/1519" (by decide) (by decide) (by decide)

theorem mergeField_eq_pick : ∀ cs : List (Option String),
    mergeField cs = pickSpec (fun s => s != "") cs
  | [] => rfl
  | none :: rest => by
    simp only [mergeField, List.foldr_cons, jsOr, pickSpec]
    exact mergeField_eq_pick rest
  | some s :: rest => by
    simp only [mergeField, List.foldr_cons, jsOr, pickSpec]
    by_cases h : s = ""
    · have hb : (s != "") = false := by rw [h]; rfl
      rw [if_pos h, if_neg (by simp [hb])]
      exact mergeField_eq_pick rest
    · have hb : (s != "") = true := bne_iff_ne.mpr h
      rw [if_neg h, if_pos hb]

/-- C6 (counterexample to the claim as stated): a whitespace-only string in
the first precedence position is truthy in JavaScript, so the `||` chain
selects it over the later non-whitespace candidate "B", while the claimed
presence test (non-empty and non-whitespace) rejects it. -/
theorem claim_c6_counterexample :
    mergeField [some " ", some "B", some "C"] = some " " ∧
    presentSpec " " = false ∧
    pickSpec presentSpec [some " ", some "B", some "C"] = some "B" := by
  refine ⟨by decide, by decide, by decide⟩

/-- C6 (amended): the `||`-chain field merge returns the first candidate in
precedence order that is present, where a string counts as present exactly
when it is non-empty (a whitespace-only string is present); all candidates
absent gives absent, and `[absent, "B", "C"]` gives "B". -/
theorem claim_c6_amended :
    (∀ cs : List (Option String), mergeField cs = pickSpec (fun s => s != "") cs) ∧
    mergeField [none, some "B", some "C"] = some "B" ∧
    (∀ cs : List (Option String), cs.all Option.isNone = true → mergeField cs = none) := by
  refine ⟨mergeField_eq_pick, by decide, ?_⟩
  intro cs h
  induction cs with
  | nil => rfl
  | cons c rest ih =>
    rw [List.all_cons, Bool.and_eq_true_iff] at h
    rcases c with _ | s
    · simp only [mergeField, List.foldr_cons, jsOr]
      exact ih h.2
    · exact Bool.noConfusion h.1

theorem claim_c6_witness : mergeField [none, none] = none :=
  claim_c6_amended.2.2 [none, none] (by decide)

theorem qidTest_ne_empty {s : String} (h : qidTest s = true) : (s != "") = true := by
  rcases eq_or_ne s "" with rfl | hne
  · exact absurd h (by decide)
  · exact bne_iff_ne.mpr hne

/-- C7: the Wikidata-link normalization of a (truthy) enrichment URI: a
trailing segment matching `Q<digits>` yields the wiki page URL, a
non-matching segment keeps the raw URI only when it starts with `http`, and
otherwise produces no link. -/
theorem claim_c7 (uri : String) :
    (qidTest (lastSegment uri) = true →
      wikidataUriToLink uri = some ("https://www.wikidata.org/wiki/" ++ lastSegment uri)) ∧
    (qidTest (lastSegment uri) = false → jsStartsWith uri "http" = true →
      wikidataUriToLink uri = some uri) ∧
    (qidTest (lastSegment uri) = false → jsStartsWith uri "http" = false →
      wikidataUriToLink uri = none) := by
  refine ⟨?_, ?_, ?_⟩
  · intro hq
    simp only [wikidataUriToLink]
    rw [if_pos (by rw [qidTest_ne_empty hq, hq]; rfl)]
  · intro hq hp
    simp only [wikidataUriToLink]
    rw [if_neg (by rw [hq]; simp), if_pos hp]
  · intro hq hp
    simp only [wikidataUriToLink]
    rw [if_neg (by rw [hq]; simp), if_neg (by rw [hp]; simp)]

theorem claim_c7_witness :
    wikidataUriToLink "http://www.wikidata.org/entity/Q45585" =
      some "https://www.wikidata.org/wiki/Q45585" := by
  have h := (claim_c7 "http://www.wikidata.org/entity/Q45585").1 (by decide)
  rw [h]
  decide

theorem dbpediaLink_name {e : Option ArtworkEnrichment} {a : Option Artwork}
    {l : ExternalLink} (h : dbpediaLink e a = some l) : l.name = "DBpedia" := by
  cases he : enrDbp e with
  | some u =>
    simp only [dbpediaLink, he] at h
    cases h
    rfl
  | none =>
    cases ha : artDbp a with
    | some u =>
      simp only [dbpediaLink, he, ha] at h
      cases h
      rfl
    | none =>
      simp only [dbpediaLink, he, ha] at h
      exact Option.noConfusion h

theorem wikidataLink_name {e : Option ArtworkEnrichment} {a : Option Artwork}
    {l : ExternalLink} (h : wikidataLink e a = some l) : l.name = "Wikidata" := by
  cases he : enrWik e with
  | some uri =>
    cases hu : wikidataUriToLink uri with
    | some url =>
      simp only [wikidataLink, he, hu] at h
      cases h
      rfl
    | none =>
      simp only [wikidataLink, he, hu] at h
      exact Option.noConfusion h
  | none =>
    cases ha : artWik a with
    | some u =>
      simp only [wikidataLink, he, ha] at h
      cases h
      rfl
    | none =>
      simp only [wikidataLink, he, ha] at h
      exact Option.noConfusion h

theorem gettyLink_name {e : Option ArtworkEnrichment} {a : Option Artwork}
    {l : ExternalLink} (h : gettyLink e a = some l) : l.name = "Getty AAT" := by
  cases he : gettyFirst e with
  | some t =>
    simp only [gettyLink, he] at h
    cases h
    rfl
  | none =>
    cases ha : artGetty a with
    | some u =>
      simp only [gettyLink, he, ha] at h
      cases h
      rfl
    | none =>
      simp only [gettyLink, he, ha] at h
      exact Option.noConfusion h

theorem dbpediaLink_url (e : Option ArtworkEnrichment) (a : Option Artwork) :
    (dbpediaLink e a).map ExternalLink.url = optOr (enrDbp e) (artDbp a) := by
  unfold dbpediaLink optOr
  cases enrDbp e with
  | some u => rfl
  | none => cases artDbp a <;> rfl

theorem wikidataLink_url (e : Option ArtworkEnrichment) (a : Option Artwork) :
    (wikidataLink e a).map ExternalLink.url =
      (match enrWik e with
       | some uri => wikidataUriToLink uri
       | none => artWik a) := by
  cases he : enrWik e with
  | some uri =>
    simp only [wikidataLink, he]
    cases hu : wikidataUriToLink uri with
    | some url => rfl
    | none => rfl
  | none =>
    simp only [wikidataLink, he]
    cases artWik a <;> rfl

theorem gettyLink_url (e : Option ArtworkEnrichment) (a : Option Artwork) :
    (gettyLink e a).map ExternalLink.url =
      (match gettyFirst e with
       | some t => some t.uri
       | none => artGetty a) := by
  unfold gettyLink
  cases gettyFirst e with
  | some t => rfl
  | none => cases artGetty a <;> rfl

theorem mem_toList_eq {o : Option ExternalLink} {l : ExternalLink} (h : l ∈ o.toList) :
    o = some l := by
  cases o with
  | none => cases h
  | some x =>
    simp only [Option.toList, List.mem_singleton] at h
    rw [h]

theorem find?_name_none (n : String) : ∀ ls : List ExternalLink,
    (∀ l ∈ ls, l.name ≠ n) → ls.find? (fun l => l.name == n) = none
  | [], _ => rfl
  | x :: xs, h => by
    have hx : ¬(x.name == n) = true := by
      simp only [beq_iff_eq]
      exact h x (List.mem_cons_self x xs)
    rw [List.find?_cons_of_neg xs hx]
    exact find?_name_none n xs (fun l hl => h l (List.mem_cons_of_mem x hl))

theorem linkFor_dbpedia (e : Option ArtworkEnrichment) (a : Option Artwork) :
    linkFor "DBpedia" (getExternalLinks e a) = (dbpediaLink e a).map ExternalLink.url := by
  unfold getExternalLinks linkFor
  cases h1 : dbpediaLink e a with
  | some l1 =>
    have hx : (l1.name == "DBpedia") = true := by
      rw [dbpediaLink_name h1]
      rfl
    simp only [Option.toList, List.cons_append, List.nil_append]
    rw [@List.find?_cons_of_pos _ (fun l => l.name == "DBpedia") l1 _ hx]
  | none =>
    have hall : ∀ l ∈ (wikidataLink e a).toList ++ (gettyLink e a).toList,
        l.name ≠ "DBpedia" := by
      intro l hl
      rcases List.mem_append.mp hl with hl | hl
      · rw [wikidataLink_name (mem_toList_eq hl)]
        decide
      · rw [gettyLink_name (mem_toList_eq hl)]
        decide
    rw [show (none : Option ExternalLink).toList = [] from rfl, List.nil_append,
      find?_name_none "DBpedia" _ hall]

theorem linkFor_wikidata (e : Option ArtworkEnrichment) (a : Option Artwork) :
    linkFor "Wikidata" (getExternalLinks e a) = (wikidataLink e a).map ExternalLink.url := by
  unfold getExternalLinks linkFor
  rw [List.append_assoc]
  have skip1 : ((dbpediaLink e a).toList ++
      ((wikidataLink e a).toList ++ (gettyLink e a).toList)).find?
        (fun l => l.name == "Wikidata") =
      ((wikidataLink e a).toList ++ (gettyLink e a).toList).find?
        (fun l => l.name == "Wikidata") := by
    cases h1 : dbpediaLink e a with
    | some l1 =>
      have hx : ¬(l1.name == "Wikidata") = true := by
        rw [dbpediaLink_name h1]
        decide
      simp only [Option.toList, List.cons_append, List.nil_append]
      rw [@List.find?_cons_of_neg _ (fun l => l.name == "Wikidata") l1 _ hx]
    | none => rfl
  rw [skip1]
  cases h2 : wikidataLink e a with
  | some l2 =>
    have hx : (l2.name == "Wikidata") = true := by
      rw [wikidataLink_name h2]
      rfl
    simp only [Option.toList, List.cons_append, List.nil_append]
    rw [@List.find?_cons_of_pos _ (fun l => l.name == "Wikidata") l2 _ hx]
  | none =>
    have hall : ∀ l ∈ (gettyLink e a).toList, l.name ≠ "Wikidata" := by
      intro l hl
      rw [gettyLink_name (mem_toList_eq hl)]
      decide
    rw [show (none : Option ExternalLink).toList = [] from rfl, List.nil_append,
      find?_name_none "Wikidata" _ hall]

theorem linkFor_getty (e : Option ArtworkEnrichment) (a : Option Artwork) :
    linkFor "Getty AAT" (getExternalLinks e a) = (gettyLink e a).map ExternalLink.url := by
  unfold getExternalLinks linkFor
  rw [List.append_assoc]
  have skip1 : ∀ (o : Option ExternalLink) (ls : List ExternalLink),
      (∀ l, o = some l → l.name ≠ "Getty AAT") →
      (o.toList ++ ls).find? (fun l => l.name == "Getty AAT") =
        ls.find? (fun l => l.name == "Getty AAT") := by
    intro o ls ho
    cases h1 : o with
    | some l1 =>
      have hx : ¬(l1.name == "Getty AAT") = true := by
        simp only [beq_iff_eq]
        exact ho l1 h1
      simp only [Option.toList, List.cons_append, List.nil_append]
      rw [@List.find?_cons_of_neg _ (fun l => l.name == "Getty AAT") l1 _ hx]
    | none => rfl
  rw [skip1 _ _ (fun l h => by rw [dbpediaLink_name h]; decide),
    skip1 _ _ (fun l h => by rw [wikidataLink_name h]; decide)]
  cases h3 : gettyLink e a with
  | some l3 =>
    have hx : (l3.name == "Getty AAT") = true := by
      rw [gettyLink_name h3]
      rfl
    simp only [Option.toList]
    rw [@List.find?_cons_of_pos _ (fun l => l.name == "Getty AAT") l3 _ hx]
  | none => rfl

theorem toList_map_name {o : Option ExternalLink} {n : String}
    (h : ∀ l, o = some l → l.name = n) :
    o.toList.map ExternalLink.name = if o.isSome then [n] else [] := by
  cases o with
  | none => rfl
  | some x =>
    simp only [Option.toList, List.map_cons, List.map_nil, Option.isSome, if_pos]
    rw [h x rfl]

theorem links_names_sublist (e : Option ArtworkEnrichment) (a : Option Artwork) :
    ((getExternalLinks e a).map ExternalLink.name).Sublist
      ["DBpedia", "Wikidata", "Getty AAT"] := by
  unfold getExternalLinks
  rw [List.map_append, List.map_append,
    toList_map_name (fun l h => dbpediaLink_name h),
    toList_map_name (fun l h => wikidataLink_name h),
    toList_map_name (fun l h => gettyLink_name h)]
  split_ifs <;> decide

/-- C8: for every enrichment view and artwork record, the external-link list
carries at most one link per provider in the fixed order DBpedia, Wikidata,
Getty AAT (its name list is a sublist of that fixed list), each provider
prefers the enrichment value and falls back to the artwork's recorded link
only when enrichment lacks the provider, and a provider with no usable
value in either source is omitted. -/
theorem claim_c8 (e : Option ArtworkEnrichment) (a : Option Artwork) :
    ((getExternalLinks e a).map ExternalLink.name).Sublist
      ["DBpedia", "Wikidata", "Getty AAT"] ∧
    (∀ u, enrDbp e = some u →
      linkFor "DBpedia" (getExternalLinks e a) = some u) ∧
    (enrDbp e = none → linkFor "DBpedia" (getExternalLinks e a) = artDbp a) ∧
    (∀ u, enrWik e = some u →
      linkFor "Wikidata" (getExternalLinks e a) = wikidataUriToLink u) ∧
    (enrWik e = none → linkFor "Wikidata" (getExternalLinks e a) = artWik a) ∧
    (∀ t, gettyFirst e = some t →
      linkFor "Getty AAT" (getExternalLinks e a) = some t.uri) ∧
    (gettyFirst e = none → linkFor "Getty AAT" (getExternalLinks e a) = artGetty a) := by
  refine ⟨links_names_sublist e a, ?_, ?_, ?_, ?_, ?_, ?_⟩
  · intro u h
    rw [linkFor_dbpedia, dbpediaLink_url]
    simp only [optOr, h]
  · intro h
    rw [linkFor_dbpedia, dbpediaLink_url]
    simp only [optOr, h]
  · intro u h
    rw [linkFor_wikidata, wikidataLink_url]
    simp only [h]
  · intro h
    rw [linkFor_wikidata, wikidataLink_url]
    simp only [h]
  · intro t h
    rw [linkFor_getty, gettyLink_url]
    simp only [h]
  · intro h
    rw [linkFor_getty, gettyLink_url]
    simp only [h]

theorem claim_c8_witness :
    linkFor "DBpedia" (getExternalLinks
      (some ⟨"1", some ⟨"http://dbpedia.org/resource/X", none, none, none, none, none⟩,
        none, none, none, none, none⟩)
      (some ⟨"1", "t", none, none, none, none, none, none, none, none, none, none,
        some ⟨some "http://other", none, none⟩⟩)) =
      some "http://dbpedia.org/resource/X" :=
  (claim_c8 (some ⟨"1", some ⟨"http://dbpedia.org/resource/X", none, none, none, none, none⟩,
      none, none, none, none, none⟩)
    (some ⟨"1", "t", none, none, none, none, none, none, none, none, none, none,
      some ⟨some "http://other", none, none⟩⟩)).2.1
    "http://dbpedia.org/resource/X" (by decide)

/-- C10 (counterexample to the claim as stated): an enrichment Wikidata entry
that is present but carries the empty-string URI is falsy, so the code DOES
fall back to the artwork's recorded Wikidata link, although the entry is
present and its URI neither yields a valid `Q<digits>` segment nor starts
with `http`. -/
theorem claim_c10_counterexample :
    (⟨"1", none, some ⟨"", none, none, none, none, none⟩, none, none, none,
      none⟩ : ArtworkEnrichment).wikidata.isSome = true ∧
    qidTest (lastSegment "") = false ∧
    jsStartsWith "" "http" = false ∧
    linkFor "Wikidata" (getExternalLinks
      (some ⟨"1", none, some ⟨"", none, none, none, none, none⟩, none, none, none, none⟩)
      (some ⟨"1", "t", none, none, none, none, none, none, none, none, none, none,
        some ⟨none, some "https://example.org/w", none⟩⟩)) =
      some "https://example.org/w" := by
  refine ⟨rfl, rfl, rfl, by decide⟩

/-- C10 (amended): when the enrichment Wikidata entry is present with a
non-empty URI whose trailing segment is not a valid `Q<digits>` id and which
does not start with `http`, the output contains no Wikidata link at all,
whatever the artwork record carries; the artwork fallback is taken only when
the enrichment Wikidata URI is absent or empty. -/
theorem claim_c10_amended (e : ArtworkEnrichment) (a : Option Artwork)
    (w : WikidataArtworkInfo) (hw : e.wikidata = some w) (hne : w.uri ≠ "")
    (hq : qidTest (lastSegment w.uri) = false)
    (hp : jsStartsWith w.uri "http" = false) :
    linkFor "Wikidata" (getExternalLinks (some e) a) = none := by
  have henr : enrWik (some e) = some w.uri := by
    simp [enrWik, hw, jsGet, hne]
  rw [linkFor_wikidata, wikidataLink_url]
  simp only [henr, wikidataUriToLink]
  rw [if_neg (by rw [hq]; simp), if_neg (by rw [hp]; simp)]

theorem claim_c10_witness :
    linkFor "Wikidata" (getExternalLinks
      (some ⟨"1", none, some ⟨"bad-uri", none, none, none, none, none⟩, none, none, none,
        none⟩)
      (some ⟨"1", "t", none, none, none, none, none, none, none, none, none, none,
        some ⟨none, some "https://example.org/w", none⟩⟩)) = none :=
  claim_c10_amended
    ⟨"1", none, some ⟨"bad-uri", none, none, none, none, none⟩, none, none, none, none⟩
    (some ⟨"1", "t", none, none, none, none, none, none, none, none, none, none,
      some ⟨none, some "https://example.org/w", none⟩⟩)
    ⟨"bad-uri", none, none, none, none, none⟩ rfl (by decide) (by decide) (by decide)

theorem digit_bound {c : Char} (h : isDig c = true) : 0 ≤ digitVal c ∧ digitVal c ≤ 9 := by
  simp only [isDig, Bool.and_eq_true_iff, decide_eq_true_eq] at h
  unfold digitVal
  omega

theorem four?_bound : ∀ (l : List Char) (v : Int), four? l = some v → 0 ≤ v ∧ v ≤ 9999
  | a :: b :: c :: d :: rest, v, h => by
    simp only [four?] at h
    by_cases hcond : (isDig a && isDig b && isDig c && isDig d) = true
    · rw [if_pos hcond] at h
      injection h with h
      rw [Bool.and_eq_true_iff, Bool.and_eq_true_iff, Bool.and_eq_true_iff] at hcond
      obtain ⟨⟨⟨ha, hb⟩, hc⟩, hd⟩ := hcond
      have b1 := digit_bound ha
      have b2 := digit_bound hb
      have b3 := digit_bound hc
      have b4 := digit_bound hd
      rw [← h]
      unfold fourDigitVal
      omega
    · rw [if_neg hcond] at h
      cases h
  | [], _, h => by cases h
  | [_], _, h => by cases h
  | [_, _], _, h => by cases h
  | [_, _, _], _, h => by cases h

theorem fourBounded_bound : ∀ (l : List Char) (v : Int),
    fourBounded l = some v → 0 ≤ v ∧ v ≤ 9999
  | a :: b :: c :: d :: rest, v, h => by
    simp only [fourBounded] at h
    split_ifs at h with hcond
    · injection h with h
      rw [Bool.and_eq_true_iff, Bool.and_eq_true_iff, Bool.and_eq_true_iff,
        Bool.and_eq_true_iff] at hcond
      obtain ⟨⟨⟨⟨ha, hb⟩, hc⟩, hd⟩, _⟩ := hcond
      have b1 := digit_bound ha
      have b2 := digit_bound hb
      have b3 := digit_bound hc
      have b4 := digit_bound hd
      rw [← h]
      unfold fourDigitVal
      omega
  | [], _, h => by cases h
  | [_], _, h => by cases h
  | [_, _], _, h => by cases h
  | [_, _, _], _, h => by cases h

theorem circaTail_bound {rest : List Char} {v : Int} (h : circaTail rest = some v) :
    0 ≤ v ∧ v ≤ 9999 := by
  unfold circaTail at h
  exact four?_bound _ v h

theorem circaScan_bound : ∀ (l : List Char) (v : Int),
    circaScan l = some v → 0 ≤ v ∧ v ≤ 9999
  | [], v, h => by cases h
  | c :: rest, v, h => by
    unfold circaScan at h
    split_ifs at h with hc
    · cases ht : circaTail rest with
      | some w =>
        rw [ht] at h
        injection h with h
        rw [← h]
        exact circaTail_bound ht
      | none =>
        rw [ht] at h
        exact circaScan_bound rest v h
    · exact circaScan_bound rest v h

theorem standaloneScan_bound : ∀ (bd : Bool) (l : List Char) (v : Int),
    standaloneScan bd l = some v → 0 ≤ v ∧ v ≤ 9999
  | _, [], _, h => by cases h
  | bd, c :: rest, v, h => by
    unfold standaloneScan at h
    cases bd
    · exact standaloneScan_bound _ rest v h
    · have h2 : (match fourBounded (c :: rest) with
        | some w => some w
        | none => standaloneScan (!isWordChar c) rest) = some v := h
      cases hf : fourBounded (c :: rest) with
      | some w =>
        rw [hf] at h2
        injection h2 with h2
        rw [← h2]
        exact fourBounded_bound _ w hf
      | none =>
        rw [hf] at h2
        exact standaloneScan_bound _ rest v h2

theorem extractYear_range (s : String) :
    extractYear s = none ∨ ∃ n : Int, 0 ≤ n ∧ n ≤ 9999 ∧ extractYear s = some n := by
  unfold extractYear extractYearL
  cases h1 : four? s.data with
  | some v =>
    exact Or.inr ⟨v, (four?_bound _ v h1).1, (four?_bound _ v h1).2, rfl⟩
  | none =>
    cases h2 : circaScan s.data with
    | some v =>
      exact Or.inr ⟨v, (circaScan_bound _ v h2).1, (circaScan_bound _ v h2).2, rfl⟩
    | none =>
      cases h3 : standaloneScan true s.data with
      | some v =>
        exact Or.inr ⟨v, (standaloneScan_bound _ _ v h3).1,
          (standaloneScan_bound _ _ v h3).2, rfl⟩
      | none => exact Or.inl rfl

theorem compare_antisym (a b : ProvenanceRecord) :
    (compareProvenance a b < 0 ↔ 0 < compareProvenance b a) ∧
    (compareProvenance a b = 0 ↔ compareProvenance b a = 0) := by
  have h1 := cmp_eq_keyCmp a b
  have h2 := cmp_eq_keyCmp b a
  rw [keyCmp_swap (rankKey a) (rankKey b)] at h2
  constructor
  · rw [← ordOfInt_eq_lt, ← ordOfInt_eq_gt, h1, h2]
    cases keyCmp (rankKey a) (rankKey b) <;> decide
  · rw [← ordOfInt_eq_eq, ← ordOfInt_eq_eq, h1, h2]
    cases keyCmp (rankKey a) (rankKey b) <;> decide

theorem getExternalLinks_length (e : Option ArtworkEnrichment) (a : Option Artwork) :
    (getExternalLinks e a).length ≤ 3 := by
  unfold getExternalLinks
  rw [List.length_append, List.length_append]
  have hlen : ∀ o : Option ExternalLink, o.toList.length ≤ 1 := by
    intro o
    cases o <;> simp [Option.toList]
  have g1 := hlen (dbpediaLink e a)
  have g2 := hlen (wikidataLink e a)
  have g3 := hlen (gettyLink e a)
  omega

theorem getExternalLinks_names (e : Option ArtworkEnrichment) (a : Option Artwork) :
    ∀ l ∈ getExternalLinks e a,
      l.name = "DBpedia" ∨ l.name = "Wikidata" ∨ l.name = "Getty AAT" := by
  intro l hl
  unfold getExternalLinks at hl
  rcases List.mem_append.mp hl with hl | hl
  · rcases List.mem_append.mp hl with hl | hl
    · exact Or.inl (dbpediaLink_name (mem_toList_eq hl))
    · exact Or.inr (Or.inl (wikidataLink_name (mem_toList_eq hl)))
  · exact Or.inr (Or.inr (gettyLink_name (mem_toList_eq hl)))

/-- C9: totality and definedness of the core functions for every input:
`extractYear` always returns null or a year in 0..9999, `formatDate`
degrades to passthrough on every unrecognized input, the comparator returns
a sign-consistent comparison value for every pair of records (however
absent or malformed their fields), and `getExternalLinks` returns a list of
at most three links drawn from the three known providers for every
combination of absent or malformed inputs. -/
theorem claim_c9 :
    (∀ s : String, extractYear s = none ∨
      ∃ n : Int, 0 ≤ n ∧ n ≤ 9999 ∧ extractYear s = some n) ∧
    (∀ s : String, ymd? (stripTime s).data = none → ym? (stripTime s).data = none →
      yOnly (stripTime s).data = false → formatDate s = s) ∧
    (∀ a b : ProvenanceRecord, (compareProvenance a b < 0 ↔ 0 < compareProvenance b a) ∧
      (compareProvenance a b = 0 ↔ compareProvenance b a = 0)) ∧
    (∀ (e : Option ArtworkEnrichment) (a : Option Artwork),
      (getExternalLinks e a).length ≤ 3 ∧
      ∀ l ∈ getExternalLinks e a,
        l.name = "DBpedia" ∨ l.name = "Wikidata" ∨ l.name = "Getty AAT") :=
  ⟨extractYear_range, fun _ h1 h2 h3 => formatDate_passthrough h1 h2 h3,
    compare_antisym, fun e a => ⟨getExternalLinks_length e a, getExternalLinks_names e a⟩⟩

theorem claim_c9_witness : formatDate "not a date" = "not a date" :=
  claim_c9.2.1 "not a date" (by decide) (by decide) (by decide)

end ArP
